import Mathlib

/-!
Verification of the actions-job-parser repository.

The program (src/actions_job_parser/actions_job_parser.py) resolves GitHub
Actions workflow files into a flat list of (workflow name, qualified job
name) pairs.  We embed the three interesting functions:

* `is_reusable_workflow`  — the reusability classifier,
* `parse_workflow_jobs`   — the recursive job resolver,
* the aggregation loop of `main` (filter, collect, dedup, sort).

The filesystem is modelled as an association list from (string) paths to
parse outcomes: a path absent from the list is a missing file; a present
path carries either a parse failure (the Python code catches
`yaml.YAMLError` and `OSError` and logs), a falsy parse result (`None` or
an empty mapping), or a structured workflow mapping.  YAML values needed by
the classifier (the value under the `on` key) are modelled by `YVal`.

The Python recursion in `parse_workflow_jobs` has no termination safeguard;
we index the embedding by fuel.  Fuel exhaustion models the Python
recursion limit: the `RecursionError` is caught by the blanket
`except Exception` handler and the deepest frame contributes nothing.
-/

namespace ActionsJobParser

/-- A YAML value as far as the classifier inspects it: the value stored
under the `on` key can be a null, a bare scalar, a sequence, or a mapping
(association list of key/value pairs, keys distinct as in a Python dict). -/
inductive YVal where
  | vnull : YVal
  | vstr (s : String) : YVal
  | vseq (xs : List YVal) : YVal
  | vmap (kvs : List (String × YVal)) : YVal

/-- One entry under `jobs`: the optional `name` field and the optional
`uses` field, both strings when present (`job_details.get("name", job_id)`
and `job_details["uses"]` in the source). -/
structure Job where
  name : Option String
  uses : Option String

/-- A parsed workflow mapping: optional `name`, the raw value under `on`
(absent when the key is missing), and the ordered `jobs` mapping (absent
when the key is missing). -/
structure Workflow where
  name : Option String
  «on» : Option YVal
  jobs : Option (List (String × Job))

/-- Outcome of opening and `yaml.safe_load`-ing one existing file.
`parseError` covers an `OSError` on open and a `yaml.YAMLError`;
`parsedFalsy` covers a falsy load result (`None` from an empty file, or an
empty mapping); `parsed w` is a truthy workflow mapping. -/
inductive FileEntry where
  | parseError : FileEntry
  | parsedFalsy : FileEntry
  | parsed (w : Workflow) : FileEntry

/-- The filesystem visible to the program: path → parse outcome.
A path not in the list does not exist (`Path.exists()` is false). -/
abbrev FS := List (String × FileEntry)

/-- `lookupFS fs p` is the entry stored at path `p`, if the file exists. -/
def lookupFS (fs : FS) (p : String) : Option FileEntry :=
  (fs.find? (fun e => e.1 == p)).map Prod.snd

/-- `reusable_workflow_path.exists()` in the source. -/
def existsFS (fs : FS) (p : String) : Bool :=
  (lookupFS fs p).isSome

/-- The output record of the resolver (`JobInfo` in the source):
a workflow display name and a qualified job name. -/
structure JobInfo where
  workflow_name : String
  name : String
  deriving DecidableEq

/-- Conditions the source logs while resolving (`logging.error` for a
failed read or parse, `logging.warning` for a missing reusable workflow).
The source has no further conditions: in particular it never reports a
cycle. -/
inductive Warning where
  | parseFailure (p : String) : Warning
  | reusableNotFound (uses : String) : Warning
  deriving DecidableEq

/-- Python `str.startswith`, i.e. string prefix test, computed on the
underlying character lists. -/
def strStartsWith (s lead : String) : Bool :=
  lead.data.isPrefixOf s.data

/-- The literal prefix `./.github/workflows/` that classifies a `uses`
reference as a local reusable-workflow call in the source. -/
def localUsesLead : String := "./.github/workflows/"

/-- `Path(repo_root) / uses_path` for a `uses_path` that starts with `./`:
pathlib collapses the single-dot segment, so the result is `repo_root`
followed by the reference without its leading dot. -/
def joinPath (root u : String) : String :=
  ⟨root.data ++ u.data.drop 1⟩

/-- The final path component (text after the last `/`). -/
def baseNameChars (p : String) : List Char :=
  ((p.data.reverse.takeWhile (fun c => !(c == '/'))).reverse)

/-- `Path(file_path).stem` as computed by pathlib: the final component
with its last suffix removed, where a suffix needs an inner dot (`rfind`
index strictly between 0 and length - 1). -/
def stem (p : String) : String :=
  let nm := baseNameChars p
  match nm.reverse.findIdx? (fun c => c == '.') with
  | none => ⟨nm⟩
  | some j =>
      let i := nm.length - 1 - j
      if 0 < i ∧ i < nm.length - 1 then ⟨nm.take i⟩ else ⟨nm⟩

/-- The body of the per-job loop in `parse_workflow_jobs`, for one entry
`(job_id, job_details)` of the `jobs` mapping.  `recur` is the recursive
call on a callee path (the caller passes the resolver at one fuel less).
Returns the `JobInfo` records this job appends and the conditions it
logs, in program order. -/
def resolveJob (fs : FS) (root wname : String)
    (recur : String → List JobInfo × List Warning)
    (jid : String) (jd : Job) : List JobInfo × List Warning :=
  let job_name := jd.name.getD jid
  match jd.uses with
  | some uses_path =>
      if strStartsWith uses_path localUsesLead then
        let rp := joinPath root uses_path
        if existsFS fs rp then
          let caller_job_name := jd.name.getD jid
          let sub := recur rp
          (sub.1.map (fun sj => ⟨wname, caller_job_name ++ " / " ++ sj.name⟩),
           sub.2)
        else
          ([⟨wname, job_name⟩], [Warning.reusableNotFound uses_path])
      else
        ([⟨wname, job_name⟩], [])
  | none => ([⟨wname, job_name⟩], [])

/-- One unfolding of `parse_workflow_jobs` on file `p`, with `recur` the
resolver available for recursive calls.  Follows the source: a missing or
unreadable or falsy file contributes nothing; otherwise the workflow name
defaults to the file stem and every job of the `jobs` mapping is resolved
in order. -/
def parseStep (fs : FS) (root : String)
    (recur : String → List JobInfo × List Warning) (p : String) :
    List JobInfo × List Warning :=
  match lookupFS fs p with
  | none => ([], [])
  | some FileEntry.parseError => ([], [Warning.parseFailure p])
  | some FileEntry.parsedFalsy => ([], [])
  | some (FileEntry.parsed w) =>
      match w.jobs with
      | none => ([], [])
      | some js =>
          let wname := w.name.getD (stem p)
          let rs := js.map (fun jj => resolveJob fs root wname recur jj.1 jj.2)
          (rs.flatMap Prod.fst, rs.flatMap Prod.snd)

/-- `parse_workflow_jobs(file_path, repo_root)` of the source, indexed by
fuel.  Fuel exhaustion models the Python recursion limit (the raised
`RecursionError` is caught by the blanket handler and the frame
contributes nothing). -/
def parse_workflow_jobs (fs : FS) (root : String) :
    Nat → String → List JobInfo × List Warning
  | 0 => fun _ => ([], [])
  | n + 1 => parseStep fs root (parse_workflow_jobs fs root n)

/-- `is_reusable_workflow(file_path)` of the source: true exactly when the
file exists, loads to a truthy mapping, the `on` key is present, its value
is a mapping, `workflow_call` is among its keys, and it has exactly one
key.  Every failure to read or parse yields false. -/
def is_reusable_workflow (fs : FS) (p : String) : Bool :=
  match lookupFS fs p with
  | none => false
  | some FileEntry.parseError => false
  | some FileEntry.parsedFalsy => false
  | some (FileEntry.parsed w) =>
      match w.«on» with
      | none => false
      | some (YVal.vmap kvs) =>
          decide ("workflow_call" ∈ kvs.map Prod.fst) && (kvs.length == 1)
      | some _ => false

/-- The filter in `main`: keep the files that are not purely reusable. -/
def top_level_workflows (fs : FS) (files : List String) : List String :=
  files.filter (fun f => !(is_reusable_workflow fs f))

/-- The pairs `(job_info["workflow_name"], job_info["name"])` added to the
`all_job_infos` set by `main`, in discovery order. -/
def gathered_pairs (fs : FS) (root : String) (fuel : Nat)
    (files : List String) : List (String × String) :=
  (top_level_workflows fs files).flatMap
    (fun f => ((parse_workflow_jobs fs root fuel f).1).map
      (fun ji => (ji.workflow_name, ji.name)))

/-- Strict lexicographic comparison of character lists by code point,
Python string `<`. -/
def charListLt : List Char → List Char → Bool
  | [], [] => false
  | [], _ :: _ => true
  | _ :: _, [] => false
  | a :: as, b :: bs =>
      if a.toNat < b.toNat then true
      else if b.toNat < a.toNat then false
      else charListLt as bs

/-- Python tuple `<=` on string pairs (the order `sorted` uses): compare
first components, break ties on the second, equality allowed. -/
def pairLe (x y : String × String) : Bool :=
  if x.1 = y.1 then (charListLt x.2.data y.2.data || decide (x.2 = y.2))
  else charListLt x.1.data y.1.data

/-- `pairLe` as a proposition, for the sorting lemmas. -/
def pairLeP (x y : String × String) : Prop := pairLe x y = true

instance : DecidableRel pairLeP :=
  fun x y => inferInstanceAs (Decidable (pairLe x y = true))

/-- The output of `main`: the collected pairs, deduplicated by the set and
presented by `sorted`, i.e. the distinct pairs in ascending tuple order. -/
def main_output (fs : FS) (root : String) (fuel : Nat)
    (files : List String) : List (String × String) :=
  List.insertionSort pairLeP (gathered_pairs fs root fuel files).dedup

end ActionsJobParser

namespace ActionsJobParser

theorem charListLt_irrefl (l : List Char) : charListLt l l = false := by
  induction l with
  | nil => rfl
  | cons a as ih => simp [charListLt, Nat.lt_irrefl, ih]

theorem charListLt_trans {a b c : List Char} (h1 : charListLt a b = true)
    (h2 : charListLt b c = true) : charListLt a c = true := by
  induction a generalizing b c with
  | nil =>
      cases b with
      | nil => simp [charListLt] at h1
      | cons y ys =>
          cases c with
          | nil => simp [charListLt] at h2
          | cons z zs => rfl
  | cons x xs ih =>
      cases b with
      | nil => simp [charListLt] at h1
      | cons y ys =>
          cases c with
          | nil => simp [charListLt] at h2
          | cons z zs =>
              simp only [charListLt] at h1 h2 ⊢
              by_cases hxy : x.toNat < y.toNat
              · by_cases hyz : y.toNat < z.toNat
                · simp [Nat.lt_trans hxy hyz]
                · simp [hxy, hyz] at h2 ⊢
                  rcases h2 with ⟨h2a, h2b⟩
                  have : x.toNat < z.toNat := by omega
                  simp [this]
              · by_cases hyx : y.toNat < x.toNat
                · simp [hxy, hyx] at h1
                · have hxyeq : x.toNat = y.toNat := by omega
                  by_cases hyz : y.toNat < z.toNat
                  · have : x.toNat < z.toNat := by omega
                    simp [this]
                  · by_cases hzy : z.toNat < y.toNat
                    · simp [hyz, hzy] at h2
                    · have hx'z : ¬ x.toNat < z.toNat := by omega
                      have hz'x : ¬ z.toNat < x.toNat := by omega
                      simp [hxy, hyx] at h1
                      simp [hyz, hzy] at h2
                      simp [hx'z, hz'x]
                      exact ih h1 h2

theorem charListLt_connex {a b : List Char} (h1 : charListLt a b = false)
    (h2 : charListLt b a = false) : a = b := by
  induction a generalizing b with
  | nil =>
      cases b with
      | nil => rfl
      | cons y ys => simp [charListLt] at h1
  | cons x xs ih =>
      cases b with
      | nil => simp [charListLt] at h2
      | cons y ys =>
          simp only [charListLt] at h1 h2
          by_cases hxy : x.toNat < y.toNat
          · simp [hxy] at h1
          · by_cases hyx : y.toNat < x.toNat
            · simp [hyx, hxy] at h2
            · simp [hxy, hyx] at h1 h2
              have ht : x.toNat = y.toNat := by omega
              have hc : x = y := Char.eq_of_val_eq (UInt32.ext ht)
              rw [hc, ih h1 h2]

theorem charListLt_asymm {a b : List Char} (h1 : charListLt a b = true)
    (h2 : charListLt b a = true) : False := by
  have := charListLt_trans h1 h2
  rw [charListLt_irrefl] at this
  exact Bool.false_ne_true this

theorem string_eq_of_data_eq {s t : String} (h : s.data = t.data) : s = t := by
  cases s; cases t; exact congrArg String.mk h

instance : IsTotal (String × String) pairLeP := by
  constructor
  intro x y
  unfold pairLeP pairLe
  by_cases h1 : x.1 = y.1
  · have h1' : y.1 = x.1 := h1.symm
    simp only [if_pos h1, if_pos h1', Bool.or_eq_true, decide_eq_true_eq]
    by_cases h2 : x.2 = y.2
    · exact Or.inl (Or.inr h2)
    · by_cases hlt : charListLt x.2.data y.2.data
      · exact Or.inl (Or.inl hlt)
      · by_cases hgt : charListLt y.2.data x.2.data
        · exact Or.inr (Or.inl hgt)
        · exact absurd (string_eq_of_data_eq
            (charListLt_connex (Bool.eq_false_iff.mpr hlt) (Bool.eq_false_iff.mpr hgt))) h2
  · have h1' : ¬ y.1 = x.1 := fun h => h1 h.symm
    simp only [if_neg h1, if_neg h1']
    by_cases hlt : charListLt x.1.data y.1.data
    · exact Or.inl hlt
    · by_cases hgt : charListLt y.1.data x.1.data
      · exact Or.inr hgt
      · exact absurd (string_eq_of_data_eq
          (charListLt_connex (Bool.eq_false_iff.mpr hlt) (Bool.eq_false_iff.mpr hgt))) h1

instance : IsTrans (String × String) pairLeP := by
  constructor
  intro x y z hxy hyz
  unfold pairLeP pairLe at hxy hyz ⊢
  by_cases h1 : x.1 = y.1
  · by_cases h2 : y.1 = z.1
    · have h3 : x.1 = z.1 := h1.trans h2
      simp only [h1, h2, h3, if_pos rfl, if_true, reduceIte] at hxy hyz ⊢
      simp only [Bool.or_eq_true, decide_eq_true_eq] at hxy hyz ⊢
      rcases hxy with hxy | hxy
      · rcases hyz with hyz | hyz
        · exact Or.inl (charListLt_trans hxy hyz)
        · rw [← hyz]; exact Or.inl hxy
      · rw [hxy]; exact hyz
    · have h3 : ¬ x.1 = z.1 := fun hc => h2 (h1.symm.trans hc)
      simp only [if_pos h1, if_neg h2, if_neg h3] at hxy hyz ⊢
      rw [h1]; exact hyz
  · by_cases h2 : y.1 = z.1
    · have h3 : ¬ x.1 = z.1 := fun hc => h1 (hc.trans h2.symm)
      simp only [if_neg h1, if_pos h2, if_neg h3] at hxy hyz ⊢
      rw [← h2]; exact hxy
    · simp only [if_neg h1, if_neg h2] at hxy hyz
      have hlt : charListLt x.1.data z.1.data = true := charListLt_trans hxy hyz
      have h3 : ¬ x.1 = z.1 := by
        intro hc
        rw [hc, charListLt_irrefl] at hlt
        exact Bool.false_ne_true hlt
      simp only [if_neg h3]
      exact hlt

theorem resolveJob_workflow_name {fs : FS} {root wname : String}
    {recur : String → List JobInfo × List Warning} {jid : String} {jd : Job}
    {ji : JobInfo} (h : ji ∈ (resolveJob fs root wname recur jid jd).1) :
    ji.workflow_name = wname := by
  unfold resolveJob at h
  rcases jd with ⟨jn, ju⟩
  cases ju with
  | none =>
      simp only [List.mem_singleton] at h
      rw [h]
  | some u =>
      by_cases hs : strStartsWith u localUsesLead
      · by_cases he : existsFS fs (joinPath root u)
        · simp only [hs, he, if_true, if_pos rfl, reduceIte, List.mem_map] at h
          obtain ⟨sj, _, hji⟩ := h
          rw [← hji]
        · simp only [hs, he, reduceIte, Bool.false_eq_true, if_false,
            List.mem_singleton] at h
          rw [h]
      · simp only [hs, Bool.false_eq_true, if_false, List.mem_singleton] at h
        rw [h]

theorem resolveJob_terminal {fs : FS} {root wname : String}
    {recur : String → List JobInfo × List Warning} {jid : String} {jd : Job}
    (h : jd.uses = none) :
    resolveJob fs root wname recur jid jd = ([⟨wname, jd.name.getD jid⟩], []) := by
  unfold resolveJob
  rw [h]

theorem resolveJob_external {fs : FS} {root wname : String}
    {recur : String → List JobInfo × List Warning} {jid : String} {jd : Job}
    {u : String} (h : jd.uses = some u)
    (hs : strStartsWith u localUsesLead = false) :
    resolveJob fs root wname recur jid jd = ([⟨wname, jd.name.getD jid⟩], []) := by
  unfold resolveJob
  rw [h]
  simp [hs]

theorem resolveJob_notFound {fs : FS} {root wname : String}
    {recur : String → List JobInfo × List Warning} {jid : String} {jd : Job}
    {u : String} (h : jd.uses = some u)
    (hs : strStartsWith u localUsesLead = true)
    (hn : lookupFS fs (joinPath root u) = none) :
    resolveJob fs root wname recur jid jd =
      ([⟨wname, jd.name.getD jid⟩], [Warning.reusableNotFound u]) := by
  unfold resolveJob
  rw [h]
  simp [hs, existsFS, hn]

theorem resolveJob_delegate {fs : FS} {root wname : String}
    {recur : String → List JobInfo × List Warning} {jid : String} {jd : Job}
    {u : String} (h : jd.uses = some u)
    (hs : strStartsWith u localUsesLead = true)
    (he : existsFS fs (joinPath root u) = true) :
    resolveJob fs root wname recur jid jd =
      ((recur (joinPath root u)).1.map
        (fun sj => ⟨wname, jd.name.getD jid ++ " / " ++ sj.name⟩),
       (recur (joinPath root u)).2) := by
  unfold resolveJob
  rw [h]
  simp [hs, he]

theorem parse_succ_eq {fs : FS} {root : String} {fuel : Nat} {p : String}
    {w : Workflow} {js : List (String × Job)}
    (hl : lookupFS fs p = some (FileEntry.parsed w)) (hj : w.jobs = some js) :
    parse_workflow_jobs fs root (fuel + 1) p =
      ((js.map (fun jj => resolveJob fs root (w.name.getD (stem p))
          (parse_workflow_jobs fs root fuel) jj.1 jj.2)).flatMap Prod.fst,
       (js.map (fun jj => resolveJob fs root (w.name.getD (stem p))
          (parse_workflow_jobs fs root fuel) jj.1 jj.2)).flatMap Prod.snd) := by
  show parseStep fs root (parse_workflow_jobs fs root fuel) p = _
  unfold parseStep
  rw [hl]
  dsimp only
  rw [hj]

theorem mem_parse_of_mem_resolveJob {fs : FS} {root : String} {fuel : Nat}
    {p : String} {w : Workflow} {js : List (String × Job)} {jid : String}
    {jd : Job} {ji : JobInfo}
    (hl : lookupFS fs p = some (FileEntry.parsed w)) (hj : w.jobs = some js)
    (hmem : (jid, jd) ∈ js)
    (hji : ji ∈ (resolveJob fs root (w.name.getD (stem p))
      (parse_workflow_jobs fs root fuel) jid jd).1) :
    ji ∈ (parse_workflow_jobs fs root (fuel + 1) p).1 := by
  rw [parse_succ_eq hl hj]
  exact List.mem_flatMap.mpr ⟨_, List.mem_map_of_mem _ hmem, hji⟩

theorem warning_parse_of_warning_resolveJob {fs : FS} {root : String}
    {fuel : Nat} {p : String} {w : Workflow} {js : List (String × Job)}
    {jid : String} {jd : Job} {wa : Warning}
    (hl : lookupFS fs p = some (FileEntry.parsed w)) (hj : w.jobs = some js)
    (hmem : (jid, jd) ∈ js)
    (hwa : wa ∈ (resolveJob fs root (w.name.getD (stem p))
      (parse_workflow_jobs fs root fuel) jid jd).2) :
    wa ∈ (parse_workflow_jobs fs root (fuel + 1) p).2 := by
  rw [parse_succ_eq hl hj]
  exact List.mem_flatMap.mpr ⟨_, List.mem_map_of_mem _ hmem, hwa⟩

def c1Path : String := "r/.github/workflows/a.yml"

def c1Workflow : Workflow :=
  ⟨some "A", some (YVal.vmap [("push", YVal.vnull)]),
   some [("self", ⟨none, some "./.github/workflows/a.yml"⟩),
         ("t", ⟨some "T", none⟩)]⟩

def c1FS : FS := [(c1Path, FileEntry.parsed c1Workflow)]

/-- C1: the claim asks that a self-referential or mutually-referential
local reusable-workflow chain terminate with a reported cycle condition
and the remaining jobs of the cyclic branch dropped.  The source resolver
has no cycle safeguard: on a workflow that `uses` itself the recursion
never reaches a fixed point.  Concretely, on `c1FS` (file `a.yml` whose
job `self` calls `./.github/workflows/a.yml` and whose job `t` is
terminal) the fuel-indexed embedding produces exactly `n` records at fuel
`n`, for every `n`: each extra level of recursion adds output, so the
original unbounded recursion does not terminate on its own (Python stops
it only at the interpreter recursion limit, logged as a generic unknown
error), and no cycle condition exists anywhere in the source to be
reported. -/
theorem c1_cycle_unbounded_recursion :
    ∀ n : Nat, ((parse_workflow_jobs c1FS "r" n c1Path).1).length = n := by
  intro n
  induction n with
  | zero => rfl
  | succ n ih =>
      have h : (parse_workflow_jobs c1FS "r" (n + 1) c1Path).1
          = ((parse_workflow_jobs c1FS "r" n c1Path).1.map
              (fun sj => ⟨"A", "self" ++ " / " ++ sj.name⟩)) ++ [⟨"A", "T"⟩] := rfl
      rw [h]
      simp [ih]

def c2CallerPath : String := "r/.github/workflows/caller.yml"

def c2CalleePath : String := "r/.github/workflows/reusable.yml"

def c2CallerWf : Workflow :=
  ⟨some "A", some (YVal.vmap [("push", YVal.vnull)]),
   some [("build", ⟨none, some "./.github/workflows/reusable.yml"⟩)]⟩

def c2CalleeWf : Workflow :=
  ⟨some "R", some (YVal.vmap [("workflow_call", YVal.vnull)]),
   some [("test", ⟨none, none⟩)]⟩

def c2FS : FS :=
  [(c2CallerPath, FileEntry.parsed c2CallerWf),
   (c2CalleePath, FileEntry.parsed c2CalleeWf)]

/-- C2 counterexample: the claim states the qualified name is the caller
effective job name concatenated with the separator "/" and the callee
qualified name.  The source concatenates with " / " (slash surrounded by
single spaces): for a caller job `build` delegating to a reusable
workflow with terminal job `test`, the emitted name is "build / test" and
the record with name "build" ++ "/" ++ "test" = "build/test" is not
emitted. -/
theorem c2_separator_counterexample :
    (parse_workflow_jobs c2FS "r" 5 c2CallerPath).1 = [⟨"A", "build / test"⟩] ∧
    JobInfo.mk "A" ("build" ++ "/" ++ "test")
      ∉ (parse_workflow_jobs c2FS "r" 5 c2CallerPath).1 := by
  exact ⟨rfl, by decide⟩

def c2APath : String := "r/.github/workflows/da.yml"
def c2BPath : String := "r/.github/workflows/db.yml"
def c2CPath : String := "r/.github/workflows/dc.yml"

def c2DepthFS : FS :=
  [(c2APath, FileEntry.parsed
     ⟨some "A", some (YVal.vmap [("push", YVal.vnull)]),
      some [("a1", ⟨none, some "./.github/workflows/db.yml"⟩)]⟩),
   (c2BPath, FileEntry.parsed
     ⟨some "B", some (YVal.vmap [("workflow_call", YVal.vnull)]),
      some [("b1", ⟨none, some "./.github/workflows/dc.yml"⟩)]⟩),
   (c2CPath, FileEntry.parsed
     ⟨some "C", some (YVal.vmap [("workflow_call", YVal.vnull)]),
      some [("c1", ⟨none, none⟩)]⟩)]

/-- C2 amended: for every delegating job whose local reusable-workflow
reference is found, each record yielded by recursively resolving the
callee is re-emitted with qualified name equal to the caller effective
job name, the separator " / " (slash surrounded by single spaces), and
the callee qualified name; a depth-3 chain (A calls B calls C, C
terminal) yields the single qualified name "a1 / b1 / c1" containing
exactly two "/" separators. -/
theorem c2_qualified_name_composition :
    (∀ (fs : FS) (root : String) (fuel : Nat) (p : String) (w : Workflow)
       (js : List (String × Job)) (jid : String) (jd : Job) (u : String)
       (sj : JobInfo),
       lookupFS fs p = some (FileEntry.parsed w) →
       w.jobs = some js →
       (jid, jd) ∈ js →
       jd.uses = some u →
       strStartsWith u localUsesLead = true →
       existsFS fs (joinPath root u) = true →
       sj ∈ (parse_workflow_jobs fs root fuel (joinPath root u)).1 →
       JobInfo.mk (w.name.getD (stem p)) (jd.name.getD jid ++ " / " ++ sj.name)
         ∈ (parse_workflow_jobs fs root (fuel + 1) p).1) ∧
    ((parse_workflow_jobs c2DepthFS "r" 5 c2APath).1 = [⟨"A", "a1 / b1 / c1"⟩] ∧
     ("a1 / b1 / c1".data.count '/') = 2) := by
  constructor
  · intro fs root fuel p w js jid jd u sj hl hj hmem hu hs he hsj
    apply mem_parse_of_mem_resolveJob hl hj hmem
    rw [resolveJob_delegate hu hs he]
    exact List.mem_map_of_mem _ hsj
  · exact ⟨rfl, by decide⟩

/-- C2 witness. -/
theorem c2_qualified_name_composition_witness :
    JobInfo.mk "A" ("build" ++ " / " ++ "test")
      ∈ (parse_workflow_jobs c2FS "r" 2 c2CallerPath).1 :=
  c2_qualified_name_composition.1 c2FS "r" 1 c2CallerPath c2CallerWf
    [("build", ⟨none, some "./.github/workflows/reusable.yml"⟩)]
    "build" ⟨none, some "./.github/workflows/reusable.yml"⟩
    "./.github/workflows/reusable.yml" ⟨"R", "test"⟩
    rfl rfl (List.mem_singleton.mpr rfl) rfl (by decide) (by decide) (by decide)

def c3CallerPath : String := "r/.github/workflows/top.yml"
def c3CalleePath : String := "r/.github/workflows/inner.yml"

def c3CallerWf : Workflow :=
  ⟨some "Caller", some (YVal.vmap [("push", YVal.vnull)]),
   some [("build", ⟨none, some "./.github/workflows/inner.yml"⟩)]⟩

def c3CalleeWf : Workflow :=
  ⟨some "Callee", some (YVal.vmap [("workflow_call", YVal.vnull)]),
   some [("test", ⟨none, none⟩)]⟩

def c3FS : FS :=
  [(c3CallerPath, FileEntry.parsed c3CallerWf),
   (c3CalleePath, FileEntry.parsed c3CalleeWf)]

/-- C3: every record produced by resolving a workflow file carries the
display name of that file itself — the outermost caller — regardless of
delegation depth, because the recursive results are re-labelled with the
caller workflow name at every level; concretely a two-level delegation
reports the caller name "Caller", never the callee name "Callee". -/
theorem c3_outermost_workflow_name :
    (∀ (fs : FS) (root : String) (fuel : Nat) (p : String) (w : Workflow)
       (ji : JobInfo),
       lookupFS fs p = some (FileEntry.parsed w) →
       ji ∈ (parse_workflow_jobs fs root fuel p).1 →
       ji.workflow_name = w.name.getD (stem p)) ∧
    ((parse_workflow_jobs c3FS "r" 5 c3CallerPath).1
        = [⟨"Caller", "build / test"⟩] ∧
     ("Caller" : String) ≠ "Callee") := by
  constructor
  · intro fs root fuel p w ji hl hji
    cases fuel with
    | zero => simp [parse_workflow_jobs] at hji
    | succ n =>
        have hstep : parse_workflow_jobs fs root (n + 1) p
            = parseStep fs root (parse_workflow_jobs fs root n) p := rfl
        rw [hstep] at hji
        unfold parseStep at hji
        rw [hl] at hji
        dsimp only at hji
        cases hj : w.jobs with
        | none => rw [hj] at hji; simp at hji
        | some js =>
            rw [hj] at hji
            dsimp only at hji
            obtain ⟨r, hr, hjir⟩ := List.mem_flatMap.mp hji
            obtain ⟨jj, _, hrw⟩ := List.mem_map.mp hr
            rw [← hrw] at hjir
            exact resolveJob_workflow_name hjir
  · exact ⟨rfl, by decide⟩

/-- C3 witness: the general statement applied to the concrete two-level
fixture. -/
theorem c3_outermost_workflow_name_witness :
    (JobInfo.mk "Caller" "build / test").workflow_name = "Caller" :=
  c3_outermost_workflow_name.1 c3FS "r" 5 c3CallerPath c3CallerWf
    ⟨"Caller", "build / test"⟩ rfl (by decide)

def c4Path : String := "r/.github/workflows/mixed.yml"

def c4FS : FS :=
  [(c4Path, FileEntry.parsed
     ⟨some "Mixed",
      some (YVal.vmap [("workflow_call", YVal.vnull), ("push", YVal.vnull)]),
      some [("j", ⟨none, none⟩)]⟩)]

/-- C4: `is_reusable_workflow` returns true if and only if the file loads
to a truthy mapping whose `on` value is a mapping with exactly one key,
that key being `workflow_call`; consequently it returns false for a
missing `on`, a non-mapping `on` (bare token or sequence), or extra keys,
and in particular a workflow with both `workflow_call` and `push` is
classified top-level. -/
theorem c4_is_reusable_iff :
    (∀ (fs : FS) (p : String),
       is_reusable_workflow fs p = true ↔
         ∃ (w : Workflow) (kvs : List (String × YVal)),
           lookupFS fs p = some (FileEntry.parsed w) ∧
           w.«on» = some (YVal.vmap kvs) ∧
           kvs.map Prod.fst = ["workflow_call"]) ∧
    is_reusable_workflow c4FS c4Path = false := by
  constructor
  · intro fs p
    constructor
    · intro h
      unfold is_reusable_workflow at h
      split at h
      · exact absurd h (by simp)
      · exact absurd h (by simp)
      · exact absurd h (by simp)
      · next w heq =>
          split at h
          · exact absurd h (by simp)
          · next kvs hon =>
              simp only [Bool.and_eq_true, decide_eq_true_eq, beq_iff_eq] at h
              obtain ⟨hmem, hlen⟩ := h
              obtain ⟨a, ha⟩ := List.length_eq_one.mp hlen
              refine ⟨w, kvs, heq, hon, ?_⟩
              rw [ha]
              rw [ha] at hmem
              simp only [List.map_cons, List.map_nil, List.mem_singleton] at hmem
              rw [hmem]
              rfl
          · exact absurd h (by simp)
    · rintro ⟨w, kvs, hl, hon, hkeys⟩
      unfold is_reusable_workflow
      rw [hl]
      dsimp only
      rw [hon]
      dsimp only
      have hmem : "workflow_call" ∈ kvs.map Prod.fst := by
        rw [hkeys]; exact List.mem_singleton.mpr rfl
      have hlen : kvs.length = 1 := by
        have := congrArg List.length hkeys
        simpa using this
      simp [hmem, hlen]
  · rfl

/-- C5: for a delegating job whose `uses` has the local reusable form but
whose referenced file does not exist, resolution does not abort: the job
contributes exactly one record under its own effective job name (for any
recursive resolver, i.e. the callee is never resolved) together with a
ReusableWorkflowNotFound warning, and both reach the output of
`parse_workflow_jobs`. -/
theorem c5_not_found_fallback :
    ∀ (fs : FS) (root : String) (fuel : Nat) (p : String) (w : Workflow)
      (js : List (String × Job)) (jid : String) (jd : Job) (u : String),
      lookupFS fs p = some (FileEntry.parsed w) →
      w.jobs = some js →
      (jid, jd) ∈ js →
      jd.uses = some u →
      strStartsWith u localUsesLead = true →
      lookupFS fs (joinPath root u) = none →
      (∀ recur, resolveJob fs root (w.name.getD (stem p)) recur jid jd
          = ([⟨w.name.getD (stem p), jd.name.getD jid⟩],
             [Warning.reusableNotFound u])) ∧
      JobInfo.mk (w.name.getD (stem p)) (jd.name.getD jid)
        ∈ (parse_workflow_jobs fs root (fuel + 1) p).1 ∧
      Warning.reusableNotFound u ∈ (parse_workflow_jobs fs root (fuel + 1) p).2 := by
  intro fs root fuel p w js jid jd u hl hj hmem hu hs hn
  refine ⟨fun recur => resolveJob_notFound hu hs hn, ?_, ?_⟩
  · apply mem_parse_of_mem_resolveJob hl hj hmem
    rw [resolveJob_notFound hu hs hn]
    exact List.mem_singleton.mpr rfl
  · apply warning_parse_of_warning_resolveJob hl hj hmem
    rw [resolveJob_notFound hu hs hn]
    exact List.mem_singleton.mpr rfl

def c5Path : String := "r/.github/workflows/c5.yml"

def c5Job : Job := ⟨none, some "./.github/workflows/missing.yml"⟩

def c5Wf : Workflow :=
  ⟨some "W", some (YVal.vmap [("push", YVal.vnull)]), some [("build", c5Job)]⟩

def c5FS : FS := [(c5Path, FileEntry.parsed c5Wf)]

/-- C5 witness: the statement applied to a caller whose reference
`./.github/workflows/missing.yml` is absent from the filesystem. -/
theorem c5_not_found_fallback_witness :
    resolveJob c5FS "r" "W" (parse_workflow_jobs c5FS "r" 2) "build" c5Job
        = ([⟨"W", "build"⟩],
           [Warning.reusableNotFound "./.github/workflows/missing.yml"]) ∧
    JobInfo.mk "W" "build" ∈ (parse_workflow_jobs c5FS "r" 3 c5Path).1 ∧
    Warning.reusableNotFound "./.github/workflows/missing.yml"
      ∈ (parse_workflow_jobs c5FS "r" 3 c5Path).2 :=
  ⟨(c5_not_found_fallback c5FS "r" 2 c5Path c5Wf [("build", c5Job)] "build" c5Job
      "./.github/workflows/missing.yml" rfl rfl (List.mem_singleton.mpr rfl) rfl
      (by decide) rfl).1 (parse_workflow_jobs c5FS "r" 2),
   (c5_not_found_fallback c5FS "r" 2 c5Path c5Wf [("build", c5Job)] "build" c5Job
      "./.github/workflows/missing.yml" rfl rfl (List.mem_singleton.mpr rfl) rfl
      (by decide) rfl).2⟩

def c6File1 : String := "r/.github/workflows/one.yml"
def c6File2 : String := "r/.github/workflows/two.yml"

def c6FS : FS :=
  [(c6File1, FileEntry.parsed
     ⟨some "CI", some (YVal.vmap [("push", YVal.vnull)]),
      some [("build", ⟨none, none⟩)]⟩),
   (c6File2, FileEntry.parsed
     ⟨some "CI", some (YVal.vmap [("push", YVal.vnull)]),
      some [("build", ⟨none, none⟩)]⟩)]

/-- C6: the final output of the aggregation loop of `main` is the set of
gathered (workflow name, job name) pairs with duplicates removed, sorted
by the lexicographic tuple order Python `sorted` uses: it has no
duplicate, it is sorted, and it contains exactly the gathered pairs; on
the concrete fixture where two distinct top-level workflows both resolve
to the pair ("CI", "build"), the two gathered occurrences appear exactly
once in the output. -/
theorem c6_output_dedup_sorted :
    (∀ (fs : FS) (root : String) (fuel : Nat) (files : List String),
       (main_output fs root fuel files).Nodup ∧
       List.Sorted pairLeP (main_output fs root fuel files) ∧
       (∀ x, x ∈ main_output fs root fuel files ↔
          x ∈ gathered_pairs fs root fuel files)) ∧
    ((gathered_pairs c6FS "r" 3 [c6File1, c6File2]).length = 2 ∧
     List.count ("CI", "build") (main_output c6FS "r" 3 [c6File1, c6File2]) = 1) := by
  constructor
  · intro fs root fuel files
    refine ⟨?_, ?_, ?_⟩
    · exact (List.perm_insertionSort pairLeP _).symm.nodup
        (List.nodup_dedup _)
    · exact List.sorted_insertionSort pairLeP _
    · intro x
      exact ((List.perm_insertionSort pairLeP _).mem_iff).trans List.mem_dedup
  · exact ⟨rfl, by decide⟩

/-- C7: a job whose `uses` does not start with `./.github/workflows/`
(an external call such as actions/checkout@v4) is terminal: it
contributes exactly one record under its effective job name, for any
recursive resolver — the referenced workflow is never expanded — and
that record reaches the output of `parse_workflow_jobs`. -/
theorem c7_external_terminal :
    ∀ (fs : FS) (root : String) (fuel : Nat) (p : String) (w : Workflow)
      (js : List (String × Job)) (jid : String) (jd : Job) (u : String),
      lookupFS fs p = some (FileEntry.parsed w) →
      w.jobs = some js →
      (jid, jd) ∈ js →
      jd.uses = some u →
      strStartsWith u localUsesLead = false →
      (∀ recur, resolveJob fs root (w.name.getD (stem p)) recur jid jd
          = ([⟨w.name.getD (stem p), jd.name.getD jid⟩], [])) ∧
      JobInfo.mk (w.name.getD (stem p)) (jd.name.getD jid)
        ∈ (parse_workflow_jobs fs root (fuel + 1) p).1 := by
  intro fs root fuel p w js jid jd u hl hj hmem hu hs
  refine ⟨fun recur => resolveJob_external hu hs, ?_⟩
  apply mem_parse_of_mem_resolveJob hl hj hmem
  rw [resolveJob_external hu hs]
  exact List.mem_singleton.mpr rfl

def c7Path : String := "r/.github/workflows/c7.yml"

def c7Job : Job := ⟨some "Checkout", some "actions/checkout@v4"⟩

def c7Wf : Workflow :=
  ⟨some "W7", some (YVal.vmap [("push", YVal.vnull)]), some [("co", c7Job)]⟩

def c7FS : FS := [(c7Path, FileEntry.parsed c7Wf)]

/-- C7 witness: the statement applied to a job with
`uses: actions/checkout@v4`. -/
theorem c7_external_terminal_witness :
    resolveJob c7FS "r" "W7" (parse_workflow_jobs c7FS "r" 0) "co" c7Job
        = ([⟨"W7", "Checkout"⟩], []) ∧
    JobInfo.mk "W7" "Checkout" ∈ (parse_workflow_jobs c7FS "r" 1 c7Path).1 :=
  ⟨(c7_external_terminal c7FS "r" 0 c7Path c7Wf [("co", c7Job)] "co" c7Job
      "actions/checkout@v4" rfl rfl (List.mem_singleton.mpr rfl) rfl (by decide)).1
      (parse_workflow_jobs c7FS "r" 0),
   (c7_external_terminal c7FS "r" 0 c7Path c7Wf [("co", c7Job)] "co" c7Job
      "actions/checkout@v4" rfl rfl (List.mem_singleton.mpr rfl) rfl (by decide)).2⟩

/-- C8: a job with no `uses` contributes exactly one record whose
qualified name is the effective display name — the `name` field when
present, else the mapping key — for any recursive resolver, and that
record reaches the output of `parse_workflow_jobs`. -/
theorem c8_no_uses_terminal :
    ∀ (fs : FS) (root : String) (fuel : Nat) (p : String) (w : Workflow)
      (js : List (String × Job)) (jid : String) (jd : Job),
      lookupFS fs p = some (FileEntry.parsed w) →
      w.jobs = some js →
      (jid, jd) ∈ js →
      jd.uses = none →
      (∀ recur, resolveJob fs root (w.name.getD (stem p)) recur jid jd
          = ([⟨w.name.getD (stem p), jd.name.getD jid⟩], [])) ∧
      JobInfo.mk (w.name.getD (stem p)) (jd.name.getD jid)
        ∈ (parse_workflow_jobs fs root (fuel + 1) p).1 ∧
      (∀ nm, jd.name = some nm → jd.name.getD jid = nm) ∧
      (jd.name = none → jd.name.getD jid = jid) := by
  intro fs root fuel p w js jid jd hl hj hmem hu
  refine ⟨fun recur => resolveJob_terminal hu, ?_, ?_, ?_⟩
  · apply mem_parse_of_mem_resolveJob hl hj hmem
    rw [resolveJob_terminal hu]
    exact List.mem_singleton.mpr rfl
  · intro nm hnm; rw [hnm]; rfl
  · intro hnm; rw [hnm]; rfl

def c8Path : String := "r/.github/workflows/c8.yml"

def c8JobNamed : Job := ⟨some "Nice", none⟩

def c8Wf : Workflow :=
  ⟨some "W8", some (YVal.vmap [("push", YVal.vnull)]),
   some [("j1", c8JobNamed), ("j2", ⟨none, none⟩)]⟩

def c8FS : FS := [(c8Path, FileEntry.parsed c8Wf)]

/-- C8 witness: the statement applied to a named terminal job. -/
theorem c8_no_uses_terminal_witness :
    resolveJob c8FS "r" "W8" (parse_workflow_jobs c8FS "r" 0) "j1" c8JobNamed
        = ([⟨"W8", "Nice"⟩], []) ∧
    JobInfo.mk "W8" "Nice" ∈ (parse_workflow_jobs c8FS "r" 1 c8Path).1 ∧
    c8JobNamed.name.getD "j1" = "Nice" :=
  ⟨(c8_no_uses_terminal c8FS "r" 0 c8Path c8Wf
      [("j1", c8JobNamed), ("j2", ⟨none, none⟩)] "j1" c8JobNamed
      rfl rfl (List.mem_cons_self _ _) rfl).1 (parse_workflow_jobs c8FS "r" 0),
   (c8_no_uses_terminal c8FS "r" 0 c8Path c8Wf
      [("j1", c8JobNamed), ("j2", ⟨none, none⟩)] "j1" c8JobNamed
      rfl rfl (List.mem_cons_self _ _) rfl).2.1,
   (c8_no_uses_terminal c8FS "r" 0 c8Path c8Wf
      [("j1", c8JobNamed), ("j2", ⟨none, none⟩)] "j1" c8JobNamed
      rfl rfl (List.mem_cons_self _ _) rfl).2.2.1 "Nice" rfl⟩

/-- C9: a workflow file that fails to read or parse inside the classifier
is classified as not purely reusable (`is_reusable_workflow` returns
false rather than raising), so it survives the top-level filter of `main`
and is still handed to the job resolver. -/
theorem c9_unreadable_treated_top_level :
    ∀ (fs : FS) (p : String) (files : List String),
      lookupFS fs p = some FileEntry.parseError →
      is_reusable_workflow fs p = false ∧
      (p ∈ files → p ∈ top_level_workflows fs files) := by
  intro fs p files hl
  have hfalse : is_reusable_workflow fs p = false := by
    unfold is_reusable_workflow
    rw [hl]
  refine ⟨hfalse, fun hp => ?_⟩
  exact List.mem_filter.mpr ⟨hp, by rw [hfalse]; rfl⟩

def c9Path : String := "r/.github/workflows/broken.yml"

def c9FS : FS := [(c9Path, FileEntry.parseError)]

/-- C9 witness: the statement applied to a filesystem holding one
unreadable file. -/
theorem c9_unreadable_treated_top_level_witness :
    is_reusable_workflow c9FS c9Path = false ∧
    c9Path ∈ top_level_workflows c9FS [c9Path] :=
  ⟨(c9_unreadable_treated_top_level c9FS c9Path [c9Path] rfl).1,
   (c9_unreadable_treated_top_level c9FS c9Path [c9Path] rfl).2
     (List.mem_singleton.mpr rfl)⟩

def c10CallerPath : String := "r/.github/workflows/c10.yml"

def c10CalleePath : String := "r/.github/workflows/nojobs.yml"

def c10Job : Job := ⟨none, some "./.github/workflows/nojobs.yml"⟩

def c10CallerWf : Workflow :=
  ⟨some "W10", some (YVal.vmap [("push", YVal.vnull)]),
   some [("build", c10Job)]⟩

def c10CalleeWf : Workflow :=
  ⟨some "NJ", some (YVal.vmap [("workflow_call", YVal.vnull)]), none⟩

def c10FS : FS :=
  [(c10CallerPath, FileEntry.parsed c10CallerWf),
   (c10CalleePath, FileEntry.parsed c10CalleeWf)]

/-- C10: a delegating job whose local reference resolves to an existing
file, but whose recursive resolution yields no record (here: the callee
has no `jobs` key), contributes zero records and no warning — it is
silently dropped, with no fallback to its own effective name, unlike the
missing-file case. -/
theorem c10_empty_callee_dropped :
    (∀ (fs : FS) (root : String) (fuel : Nat) (wname : String)
       (jid : String) (jd : Job) (u : String),
       jd.uses = some u →
       strStartsWith u localUsesLead = true →
       existsFS fs (joinPath root u) = true →
       (parse_workflow_jobs fs root fuel (joinPath root u)).1 = [] →
       (resolveJob fs root wname (parse_workflow_jobs fs root fuel) jid jd).1
         = [] ∧
       (resolveJob fs root wname (parse_workflow_jobs fs root fuel) jid jd).2
         = (parse_workflow_jobs fs root fuel (joinPath root u)).2) ∧
    ((parse_workflow_jobs c10FS "r" 5 c10CallerPath).1 = [] ∧
     (parse_workflow_jobs c10FS "r" 5 c10CallerPath).2 = []) := by
  constructor
  · intro fs root fuel wname jid jd u hu hs he hempty
    rw [resolveJob_delegate hu hs he]
    constructor
    · simp [hempty]
    · rfl
  · exact ⟨rfl, rfl⟩

/-- C10 witness: the statement applied to a caller whose callee
`nojobs.yml` exists but defines no jobs. -/
theorem c10_empty_callee_dropped_witness :
    (resolveJob c10FS "r" "W10" (parse_workflow_jobs c10FS "r" 4) "build" c10Job).1
      = [] ∧
    (resolveJob c10FS "r" "W10" (parse_workflow_jobs c10FS "r" 4) "build" c10Job).2
      = (parse_workflow_jobs c10FS "r" 4 (joinPath "r" "./.github/workflows/nojobs.yml")).2 :=
  c10_empty_callee_dropped.1 c10FS "r" 4 "W10" "build" c10Job
    "./.github/workflows/nojobs.yml" rfl (by decide) (by decide) rfl
